import Mathlib

/-!
Verification of the user-repository core of the `first-steps` service
(`src/repositories/user_repository.py`, `src/routers/user_router.py`).

The MongoDB-backed state is embedded shallowly: the `users` collection is a
list of stored documents (with the Mongo `_id` surrogate modelled as `oid`),
the `counters` collection holds at most one record `\x7b_id: "user_index",
seq: n\x7d`, modelled as `Option Int`, and the set of created unique indexes
on `users` is a list of index names.  Randomness of the short hex id
generator is modelled by an explicit stream of generated ids.
-/

namespace FirstSteps

/-- Name of the unique index on the `id` field (`uniq_id` in the source). -/
def uniqIdName : String := "uniq_id"

/-- Name of the unique index on the `user_index` field (`uniq_user_index`). -/
def uniqUserIndexName : String := "uniq_user_index"

/-- A stored document of the `users` collection.  `oid` models the
Mongo-assigned `_id` surrogate field; the remaining fields are the
user fields persisted by `add_user`.  The client-supplied profile
attributes are represented by the single field `name`. -/
structure StoredUser where
  oid : Nat
  id : String
  user_index : Int
  name : String
deriving Repr, DecidableEq

/-- Modelled from the spec: the `UserOut` response model of the missing
`models/user.py` — the created user record with the server-assigned `id`
and `user_index` plus the client-supplied profile attributes (`name`);
it has no `_id` surrogate field. -/
structure UserOut where
  id : String
  user_index : Int
  name : String
deriving Repr, DecidableEq

/-- The database state: the `users` collection (document list, in insertion
order), the `seq` field of the single `counters` document with
`_id = "user_index"` (`none` when that document is absent), the names of
the indexes created on `users`, and the next fresh `_id` surrogate. -/
structure Store where
  users : List StoredUser
  counter : Option Int
  indexes : List String
  nextOid : Nat
deriving Repr, DecidableEq

/-- Per-instance repository state: the in-memory `_initialized` flag, plus a
ghost counter of how many times the pair of `create_index` calls was
actually issued (used to state idempotence of initialization). -/
structure RepoState where
  inited : Bool
  initCalls : Nat
deriving Repr, DecidableEq

/-- The empty store: no users, no counter document, no indexes. -/
def store0 : Store := ⟨[], none, [], 0⟩

/-- A freshly constructed repository instance (`_initialized = False`). -/
def repo0 : RepoState := ⟨false, 0⟩

/-- Storage operation `create_index(name, unique=True)`: idempotent at the storage layer —
creating an index that already exists is a no-op. -/
def create_index (s : Store) (nm : String) : Store :=
  if s.indexes.contains nm then s
  else { s with indexes := s.indexes ++ [nm] }

/-- Method `UserRepository._initialize`: returns immediately when the in-memory
flag is set; otherwise creates the unique indexes on `id` and
`user_index` and sets the flag.  The ghost field `initCalls` counts the
issuances of the index-creation calls. -/
def initRepo (r : RepoState) (s : Store) : RepoState × Store :=
  if r.inited then (r, s)
  else
    let s1 := create_index s uniqIdName
    let s2 := create_index s1 uniqUserIndexName
    (⟨true, r.initCalls + 1⟩, s2)

/-- The current counter value, with an absent counter document read as 0
(the value the atomic upsert-increment starts from). -/
def counterVal (s : Store) : Int := s.counter.getD 0

/-- Storage operation `find_one_and_update` on the `counters` collection with filter
`_id = "user_index"`, update `$inc seq 1`, `upsert=True` and
`ReturnDocument.AFTER`: when the document is absent it is created with
`seq = 1`; otherwise `seq` is incremented by 1.  Returns the
post-increment `seq` together with the new stored value. -/
def find_one_and_update_inc (c : Option Int) : Int × Option Int :=
  match c with
  | none => (1, some 1)
  | some v => (v + 1, some (v + 1))

/-- Method `UserRepository._get_next_user_index` as written in the source,
including the corrective `update_one` write (forcing `seq` to 1) that is
issued when the post-increment value equals 1. -/
def get_next_user_index (s : Store) : Int × Store :=
  let p := find_one_and_update_inc s.counter
  let seq := p.1
  let s1 : Store := { s with counter := p.2 }
  if seq == 1 then (seq, { s1 with counter := some 1 })
  else (seq, s1)

/-- Variant of `_get_next_user_index` with the corrective write removed,
stated from the spec words for the refinement comparison: just the atomic
upsert-increment, returning the post-increment value. -/
def get_next_user_index_no_corrective (s : Store) : Int × Store :=
  let p := find_one_and_update_inc s.counter
  (p.1, { s with counter := p.2 })

/-- Storage operation `insert_one` on the `users` collection: raises `DuplicateKeyError`
(modelled as `Except.error ()`) when some unique index exists whose key
the new document duplicates; otherwise appends the document, assigning a
fresh `_id` surrogate. -/
def insert_one (s : Store) (i : String) (uidx : Int) (nm : String) :
    Except Unit Store :=
  if (s.indexes.contains uniqIdName && s.users.any (fun d => d.id == i))
      || (s.indexes.contains uniqUserIndexName
            && s.users.any (fun d => d.user_index == uidx)) then
    Except.error ()
  else
    Except.ok { s with
      users := s.users ++ [⟨s.nextOid, i, uidx, nm⟩],
      nextOid := s.nextOid + 1 }

/-- Method `UserRepository.add_user`.  Here `gen` is the stream of ids produced by the
(spec-modelled) random generator `generate_short_hex_id`: `gen 0` is the
id produced when the `UserDB` record is built, `gen 1` the one produced
by the regenerate-and-retry branch.  `nm` stands for the validated
payload fields.  Returns the `UserOut` response (or the propagated
`DuplicateKeyError`) together with the resulting repository and store
states. -/
def add_user (r : RepoState) (s : Store) (gen : Nat → String) (nm : String) :
    Except Unit UserOut × RepoState × Store :=
  let rs := initRepo r s
  let id0 := gen 0
  let q := get_next_user_index rs.2
  let idx := q.1
  let s2 := q.2
  match insert_one s2 id0 idx nm with
  | Except.ok s3 => (Except.ok ⟨id0, idx, nm⟩, rs.1, s3)
  | Except.error _ =>
    match insert_one s2 (gen 1) idx nm with
    | Except.ok s3 => (Except.ok ⟨gen 1, idx, nm⟩, rs.1, s3)
    | Except.error e => (Except.error e, rs.1, s2)

/-- Projection applied by `find_one(..., \x7b"_id": 0\x7d)`: the stored
document without the `_id` surrogate field. -/
def toOut (d : StoredUser) : UserOut := ⟨d.id, d.user_index, d.name⟩

/-- Method `UserRepository.get_user_by_id`: ensures initialization, then looks up
the first document whose `id` matches, excluding `_id` from the result;
returns `none` (the not-found sentinel) when no document matches. -/
def get_user_by_id (r : RepoState) (s : Store) (uid : String) :
    Option UserOut × RepoState × Store :=
  let rs := initRepo r s
  match rs.2.users.find? (fun d => d.id == uid) with
  | none => (none, rs.1, rs.2)
  | some d => (some (toOut d), rs.1, rs.2)

/-- Response of the router endpoint `GET /users/\x7buser_id\x7d`. -/
inductive GetUserResponse
  | notFound404
  | ok (u : UserOut)
deriving Repr, DecidableEq

/-- Router handler `get_user`: delegates to the repository and translates
the `none` sentinel into an HTTP 404 response. -/
def get_user (r : RepoState) (s : Store) (uid : String) :
    GetUserResponse × RepoState × Store :=
  let q := get_user_by_id r s uid
  match q.1 with
  | none => (GetUserResponse.notFound404, q.2.1, q.2.2)
  | some u => (GetUserResponse.ok u, q.2.1, q.2.2)

/-- Runs a sequence of `add_user` operations on one repository instance,
threading the states.  Each operation carries its own generated-id stream
and payload.  The result list pairs the `user_index` assigned to each
operation (the counter value it consumed) with the operation outcome. -/
def runAdds (r : RepoState) (s : Store) :
    List ((Nat → String) × String) →
    List (Int × Except Unit UserOut) × RepoState × Store
  | [] => ([], r, s)
  | op :: rest =>
    let q := add_user r s op.1 op.2
    let w := runAdds q.2.1 q.2.2 rest
    ((counterVal s + 1, q.1) :: w.1, w.2.1, w.2.2)

/-- Iterates `_initialize` on one repository instance. -/
def iterInit : Nat → RepoState × Store → RepoState × Store
  | 0, p => p
  | n + 1, p => iterInit n (initRepo p.1 p.2)

/-! ## Helper lemmas about the primitive operations -/

theorem counterVal_none (us : List StoredUser) (ix : List String) (no : Nat) :
    counterVal ⟨us, none, ix, no⟩ = 0 := rfl

theorem gnui_eq (s : Store) :
    get_next_user_index s =
      (counterVal s + 1, { s with counter := some (counterVal s + 1) }) := by
  rcases s with ⟨us, c, ix, no⟩
  cases c with
  | none => rfl
  | some v =>
    simp only [get_next_user_index, find_one_and_update_inc, counterVal,
      Option.getD]
    split
    · rename_i h
      simp only [beq_iff_eq] at h
      simp [h]
    · rfl

theorem create_index_counter (s : Store) (nm : String) :
    ((create_index s nm).counter) = s.counter := by
  unfold create_index
  split <;> rfl

theorem create_index_users (s : Store) (nm : String) :
    ((create_index s nm).users) = s.users := by
  unfold create_index
  split <;> rfl

theorem initRepo_counter (r : RepoState) (s : Store) :
    ((initRepo r s).2).counter = s.counter := by
  unfold initRepo
  split
  · rfl
  · simp [create_index_counter]

theorem initRepo_users (r : RepoState) (s : Store) :
    ((initRepo r s).2).users = s.users := by
  unfold initRepo
  split
  · rfl
  · simp [create_index_users]

theorem initRepo_inited (r : RepoState) (s : Store) :
    ((initRepo r s).1).inited = true := by
  rcases r with ⟨b, k⟩
  cases b <;> simp [initRepo]

theorem initRepo_of_inited (r : RepoState) (s : Store) (h : r.inited = true) :
    initRepo r s = (r, s) := by
  simp [initRepo, h]

theorem create_index_mem (s : Store) (nm : String) :
    nm ∈ ((create_index s nm).indexes) := by
  unfold create_index
  split
  · rename_i h
    simpa using h
  · simp

theorem create_index_mem_mono (s : Store) (nm nm2 : String)
    (h : nm ∈ s.indexes) : nm ∈ ((create_index s nm2).indexes) := by
  unfold create_index
  split
  · exact h
  · simp [h]

theorem initRepo_mem_uniqId (r : RepoState) (s : Store)
    (h : r.inited = true → uniqIdName ∈ s.indexes) :
    uniqIdName ∈ ((initRepo r s).2).indexes := by
  unfold initRepo
  split
  · rename_i hb
    exact h hb
  · exact create_index_mem_mono _ _ _ (create_index_mem s uniqIdName)

theorem initRepo_mem_uniqUserIndex (r : RepoState) (s : Store)
    (h : r.inited = true → uniqUserIndexName ∈ s.indexes) :
    uniqUserIndexName ∈ ((initRepo r s).2).indexes := by
  unfold initRepo
  split
  · rename_i hb
    exact h hb
  · exact create_index_mem (create_index s uniqIdName) uniqUserIndexName

theorem insert_one_counter (s : Store) (i : String) (uidx : Int) (nm : String)
    (s3 : Store) (h : insert_one s i uidx nm = Except.ok s3) :
    s3.counter = s.counter := by
  unfold insert_one at h
  split at h
  · exact absurd h (by simp)
  · cases h
    rfl

theorem insert_one_users (s : Store) (i : String) (uidx : Int) (nm : String)
    (s3 : Store) (h : insert_one s i uidx nm = Except.ok s3) :
    s3.users = s.users ++ [⟨s.nextOid, i, uidx, nm⟩] := by
  unfold insert_one at h
  split at h
  · exact absurd h (by simp)
  · cases h
    rfl

theorem insert_one_indexes (s : Store) (i : String) (uidx : Int) (nm : String)
    (s3 : Store) (h : insert_one s i uidx nm = Except.ok s3) :
    s3.indexes = s.indexes := by
  unfold insert_one at h
  split at h
  · exact absurd h (by simp)
  · cases h
    rfl

theorem insert_one_ok_no_dup_id (s : Store) (i : String) (uidx : Int)
    (nm : String) (s3 : Store) (hix : uniqIdName ∈ s.indexes)
    (h : insert_one s i uidx nm = Except.ok s3) :
    ∀ d ∈ s.users, d.id ≠ i := by
  unfold insert_one at h
  split at h
  · exact absurd h (by simp)
  · rename_i hc
    intro d hd
    simp only [Bool.or_eq_true, Bool.and_eq_true, List.any_eq_true,
      beq_iff_eq, not_or, not_and, not_exists] at hc
    intro hid
    exact hc.1 (List.elem_eq_true_of_mem hix) d hd hid

theorem insert_one_err_of_dup_id (s : Store) (i : String) (uidx : Int)
    (nm : String) (hix : uniqIdName ∈ s.indexes) (d : StoredUser)
    (hd : d ∈ s.users) (hid : d.id = i) :
    insert_one s i uidx nm = Except.error () := by
  unfold insert_one
  split
  · rfl
  · rename_i hc
    simp only [Bool.or_eq_true, Bool.and_eq_true, List.any_eq_true,
      beq_iff_eq, not_or, not_and, not_exists] at hc
    exact absurd hid (hc.1 (List.elem_eq_true_of_mem hix) d hd)

theorem insert_one_err_of_dup_index (s : Store) (i : String) (uidx : Int)
    (nm : String) (hix : uniqUserIndexName ∈ s.indexes) (d : StoredUser)
    (hd : d ∈ s.users) (hu : d.user_index = uidx) :
    insert_one s i uidx nm = Except.error () := by
  unfold insert_one
  split
  · rfl
  · rename_i hc
    simp only [Bool.or_eq_true, Bool.and_eq_true, List.any_eq_true,
      beq_iff_eq, not_or, not_and, not_exists] at hc
    exact absurd hu (hc.2 (List.elem_eq_true_of_mem hix) d hd)

theorem insert_one_ok_of_clean (s : Store) (i : String) (uidx : Int)
    (nm : String) (hid : ∀ d ∈ s.users, d.id ≠ i)
    (hu : ∀ d ∈ s.users, d.user_index ≠ uidx) :
    insert_one s i uidx nm =
      Except.ok { s with
        users := s.users ++ [⟨s.nextOid, i, uidx, nm⟩],
        nextOid := s.nextOid + 1 } := by
  unfold insert_one
  split
  · rename_i hc
    simp only [Bool.or_eq_true, Bool.and_eq_true, List.any_eq_true,
      beq_iff_eq] at hc
    rcases hc with ⟨-, d, hd, hdid⟩ | ⟨-, d, hd, hdu⟩
    · exact absurd hdid (hid d hd)
    · exact absurd hdu (hu d hd)
  · rfl

instance : DecidableEq (Except Unit UserOut) := fun a b =>
  match a, b with
  | Except.error x, Except.error y =>
    if h : x = y then Decidable.isTrue (by rw [h])
    else Decidable.isFalse (fun hh => h (by injection hh))
  | Except.error _, Except.ok _ =>
    Decidable.isFalse (fun hh => Except.noConfusion hh)
  | Except.ok _, Except.error _ =>
    Decidable.isFalse (fun hh => Except.noConfusion hh)
  | Except.ok x, Except.ok y =>
    if h : x = y then Decidable.isTrue (by rw [h])
    else Decidable.isFalse (fun hh => h (by injection hh))

theorem initRepo_counterVal (r : RepoState) (s : Store) :
    counterVal ((initRepo r s).2) = counterVal s := by
  unfold counterVal
  rw [initRepo_counter]

theorem find?_append_last (l : List StoredUser) (d : StoredUser)
    (p : StoredUser → Bool) (hl : ∀ x ∈ l, p x = false) (hd : p d = true) :
    (l ++ [d]).find? p = some d := by
  induction l with
  | nil => simp [List.find?, hd]
  | cons a as ih =>
    have ha : p a = false := hl a (by simp)
    simp only [List.cons_append, List.find?, ha]
    exact ih (fun x hx => hl x (by simp [hx]))

theorem initRepo_idem (r : RepoState) (s : Store) :
    initRepo (initRepo r s).1 (initRepo r s).2 = initRepo r s := by
  rw [initRepo_of_inited _ _ (initRepo_inited r s)]

theorem iterInit_initRepo (n : Nat) (r : RepoState) (s : Store) :
    iterInit n (initRepo r s) = initRepo r s := by
  induction n generalizing r s with
  | zero => rfl
  | succ k ih =>
    show iterInit k (initRepo (initRepo r s).1 (initRepo r s).2) = initRepo r s
    rw [initRepo_idem]
    exact ih r s

theorem gnui_fst (s : Store) :
    (get_next_user_index s).1 = counterVal s + 1 := by
  rw [gnui_eq]

theorem gnui_counter (s : Store) :
    ((get_next_user_index s).2).counter = some (counterVal s + 1) := by
  rw [gnui_eq]

theorem gnui_users (s : Store) :
    ((get_next_user_index s).2).users = s.users := by
  rw [gnui_eq]

theorem gnui_indexes (s : Store) :
    ((get_next_user_index s).2).indexes = s.indexes := by
  rw [gnui_eq]

theorem gnui_counterVal (s : Store) :
    counterVal ((get_next_user_index s).2) = counterVal s + 1 := by
  unfold counterVal
  rw [gnui_counter]
  rfl

theorem add_user_counter (r : RepoState) (s : Store) (gen : Nat → String)
    (nm : String) :
    counterVal ((add_user r s gen nm).2.2) = counterVal s + 1 := by
  simp only [add_user]
  split
  · rename_i s3 h
    have hs3 := insert_one_counter _ _ _ _ _ h
    rw [gnui_counter, initRepo_counterVal] at hs3
    show counterVal s3 = counterVal s + 1
    unfold counterVal
    rw [hs3]
    rfl
  · split
    · rename_i s3 h
      have hs3 := insert_one_counter _ _ _ _ _ h
      rw [gnui_counter, initRepo_counterVal] at hs3
      show counterVal s3 = counterVal s + 1
      unfold counterVal
      rw [hs3]
      rfl
    · show counterVal ((get_next_user_index (initRepo r s).2).2) = counterVal s + 1
      rw [gnui_counterVal, initRepo_counterVal]

theorem add_user_repo (r : RepoState) (s : Store) (gen : Nat → String)
    (nm : String) :
    (add_user r s gen nm).2.1 = (initRepo r s).1 := by
  simp only [add_user]
  split
  · rfl
  · split <;> rfl

theorem add_user_ok_index (r : RepoState) (s : Store) (gen : Nat → String)
    (nm : String) (u : UserOut) (h : (add_user r s gen nm).1 = Except.ok u) :
    u.user_index = counterVal s + 1 := by
  simp only [add_user] at h
  split at h
  · simp only [Except.ok.injEq] at h
    rw [← h]
    show (get_next_user_index (initRepo r s).2).1 = counterVal s + 1
    rw [gnui_fst, initRepo_counterVal]
  · split at h
    · simp only [Except.ok.injEq] at h
      rw [← h]
      show (get_next_user_index (initRepo r s).2).1 = counterVal s + 1
      rw [gnui_fst, initRepo_counterVal]
    · simp at h

/-! ## Running sequences of creates -/

/-- The list `[k, k+1, ..., k+n-1]` of `n` consecutive integers. -/
def consecFrom (k : Int) : Nat → List Int
  | 0 => []
  | n + 1 => k :: consecFrom (k + 1) n

theorem consecFrom_eq (n : Nat) (k : Int) :
    consecFrom k n = (List.range n).map (fun i : Nat => k + (i : Int)) := by
  induction n generalizing k with
  | zero => rfl
  | succ m ih =>
    rw [List.range_succ_eq_map, List.map_cons, List.map_map]
    simp only [consecFrom]
    congr 1
    · simp
    · rw [ih (k + 1)]
      refine List.map_congr_left ?_
      intro i hi
      simp only [Function.comp_apply]
      push_cast
      ring

theorem runAdds_fst (ops : List ((Nat → String) × String)) (r : RepoState)
    (s : Store) :
    (runAdds r s ops).1.map Prod.fst = consecFrom (counterVal s + 1) ops.length := by
  induction ops generalizing r s with
  | nil => rfl
  | cons op rest ih =>
    simp only [runAdds, List.map_cons, List.length_cons, consecFrom]
    congr 1
    rw [ih, add_user_counter]

theorem runAdds_ok_index (ops : List ((Nat → String) × String)) (r : RepoState)
    (s : Store) :
    ∀ p ∈ (runAdds r s ops).1, ∀ u, p.2 = Except.ok u → u.user_index = p.1 := by
  induction ops generalizing r s with
  | nil =>
    intro p hp
    simp [runAdds] at hp
  | cons op rest ih =>
    intro p hp u hu
    simp only [runAdds, List.mem_cons] at hp
    rcases hp with hp | hp
    · subst hp
      exact add_user_ok_index r s op.1 op.2 u hu
    · exact ih _ _ p hp u hu

/-! ## Preservation of id uniqueness -/

theorem add_user_preserves_nodup (r : RepoState) (s : Store)
    (gen : Nat → String) (nm : String)
    (hwf : r.inited = true → uniqIdName ∈ s.indexes)
    (hnd : (s.users.map (fun d => d.id)).Nodup) :
    ((((add_user r s gen nm).2.2).users).map (fun d => d.id)).Nodup ∧
    ((add_user r s gen nm).2.1.inited = true →
      uniqIdName ∈ ((add_user r s gen nm).2.2).indexes) := by
  have hix : uniqIdName ∈ ((initRepo r s).2).indexes := initRepo_mem_uniqId r s hwf
  have hix2 : uniqIdName ∈ ((get_next_user_index (initRepo r s).2).2).indexes := by
    rw [gnui_indexes]
    exact hix
  have hus2 : ((get_next_user_index (initRepo r s).2).2).users = s.users := by
    rw [gnui_users, initRepo_users]
  simp only [add_user]
  split
  · rename_i s3 h
    have husers := insert_one_users _ _ _ _ _ h
    have hind := insert_one_indexes _ _ _ _ _ h
    have hno := insert_one_ok_no_dup_id _ _ _ _ _ hix2 h
    rw [hus2] at husers hno
    constructor
    · show ((s3.users).map (fun d => d.id)).Nodup
      rw [husers]
      simp only [List.map_append, List.map_cons, List.map_nil]
      rw [List.nodup_append]
      refine ⟨hnd, List.nodup_singleton _, ?_⟩
      intro a ha hb
      simp only [List.mem_singleton] at hb
      subst hb
      simp only [List.mem_map] at ha
      obtain ⟨d, hd, hda⟩ := ha
      exact hno d hd hda
    · intro _
      show uniqIdName ∈ s3.indexes
      rw [hind]
      exact hix2
  · split
    · rename_i s3 h
      have husers := insert_one_users _ _ _ _ _ h
      have hind := insert_one_indexes _ _ _ _ _ h
      have hno := insert_one_ok_no_dup_id _ _ _ _ _ hix2 h
      rw [hus2] at husers hno
      constructor
      · show ((s3.users).map (fun d => d.id)).Nodup
        rw [husers]
        simp only [List.map_append, List.map_cons, List.map_nil]
        rw [List.nodup_append]
        refine ⟨hnd, List.nodup_singleton _, ?_⟩
        intro a ha hb
        simp only [List.mem_singleton] at hb
        subst hb
        simp only [List.mem_map] at ha
        obtain ⟨d, hd, hda⟩ := ha
        exact hno d hd hda
      · intro _
        show uniqIdName ∈ s3.indexes
        rw [hind]
        exact hix2
    · constructor
      · show ((((get_next_user_index (initRepo r s).2).2).users).map
          (fun d => d.id)).Nodup
        rwa [hus2]
      · intro _
        show uniqIdName ∈ ((get_next_user_index (initRepo r s).2).2).indexes
        exact hix2

theorem runAdds_inv (ops : List ((Nat → String) × String)) (r : RepoState)
    (s : Store) (hwf : r.inited = true → uniqIdName ∈ s.indexes)
    (hnd : (s.users.map (fun d => d.id)).Nodup) :
    ((((runAdds r s ops).2.2).users).map (fun d => d.id)).Nodup := by
  induction ops generalizing r s with
  | nil => exact hnd
  | cons op rest ih =>
    have h := add_user_preserves_nodup r s op.1 op.2 hwf hnd
    simp only [runAdds]
    exact ih _ _ h.2 h.1

/-! ## Claim theorems -/

/-- C2: `_get_next_user_index` performs a single atomic find-and-increment
on the counter record with `_id = "user_index"`, incrementing its `seq`
field by 1 (creating the record with `seq = 1` when it is absent, since
`counterVal` reads an absent record as 0), and returns the post-increment
value of `seq`; nothing else in the store changes. -/
theorem get_next_user_index_atomic_increment (s : Store) :
    get_next_user_index s =
      (counterVal s + 1, { s with counter := some (counterVal s + 1) }) :=
  gnui_eq s

/-- C8: the corrective write issued when the post-increment value equals 1
never changes the counter state — `_get_next_user_index` with the
corrective write is observationally equal to the variant without it, on
every store. -/
theorem corrective_write_noop (s : Store) :
    get_next_user_index s = get_next_user_index_no_corrective s := by
  rw [gnui_eq]
  rcases s with ⟨us, c, ix, no⟩
  cases c with
  | none => rfl
  | some v => rfl

/-- C10: `get_user_by_id` never modifies any stored document — for every
input id and every store state, the documents of the `users` and
`counters` collections are identical before and after the call. -/
theorem get_user_by_id_pure (r : RepoState) (s : Store) (uid : String) :
    ((get_user_by_id r s uid).2.2).users = s.users ∧
    ((get_user_by_id r s uid).2.2).counter = s.counter := by
  have h1 := initRepo_users r s
  have h2 := initRepo_counter r s
  unfold get_user_by_id
  cases hf : (initRepo r s).2.users.find? (fun d => d.id == uid) with
  | none => simpa [hf] using ⟨h1, h2⟩
  | some d => simpa [hf] using ⟨h1, h2⟩

/-- C7: initialization is idempotent per repository instance — calling
`_initialize` any number of times equals calling it once (every call
after the first is a no-op), and the pair of index-creation calls is
issued at most once over the instance lifetime. -/
theorem init_idempotent_per_instance (r : RepoState) (s : Store) (n : Nat) :
    iterInit (n + 1) (r, s) = initRepo r s ∧
    (iterInit (n + 1) (r, s)).1.initCalls ≤ r.initCalls + 1 := by
  have h : iterInit (n + 1) (r, s) = initRepo r s := by
    show iterInit n (initRepo r s) = initRepo r s
    exact iterInit_initRepo n r s
  refine ⟨h, ?_⟩
  rw [h]
  unfold initRepo
  split
  · exact Nat.le_succ _
  · exact Nat.le_refl _

/-- C6: for an id matching no stored user, `get_user_by_id` returns the
not-found sentinel `none` rather than an error, the router translates the
sentinel into a 404 response, and every record the repository does return
is a stored document with the `_id` surrogate projected away. -/
theorem get_user_not_found_sentinel (r : RepoState) (s : Store) (uid : String)
    (h : ∀ d ∈ s.users, d.id ≠ uid) :
    (get_user_by_id r s uid).1 = none ∧
    (get_user r s uid).1 = GetUserResponse.notFound404 ∧
    ∀ (r2 : RepoState) (s2 : Store) (uid2 : String) (u : UserOut),
      (get_user_by_id r2 s2 uid2).1 = some u →
      ∃ d ∈ s2.users, u = toOut d := by
  have hf : (initRepo r s).2.users.find? (fun d => d.id == uid) = none := by
    rw [initRepo_users]
    refine List.find?_eq_none.mpr ?_
    intro d hd
    simpa using h d hd
  have hone : (get_user_by_id r s uid).1 = none := by
    simp [get_user_by_id, hf]
  refine ⟨hone, ?_, ?_⟩
  · simp [get_user, hone]
  · intro r2 s2 uid2 u hu
    unfold get_user_by_id at hu
    cases hf2 : (initRepo r2 s2).2.users.find? (fun d => d.id == uid2) with
    | none => simp [hf2] at hu
    | some d =>
      simp only [hf2, Option.some.injEq] at hu
      refine ⟨d, ?_, hu.symm⟩
      have hm := List.mem_of_find?_eq_some hf2
      rwa [initRepo_users] at hm

/-- Concrete id used by witnesses for lookups that must miss. -/
def zzId : String := "zz"

/-- Witness for C6: on the empty store, looking up the id `zz` yields the
sentinel and the router answers 404. -/
theorem get_user_not_found_sentinel_witness :
    (get_user_by_id repo0 store0 zzId).1 = none ∧
    (get_user repo0 store0 zzId).1 = GetUserResponse.notFound404 ∧
    ∀ (r2 : RepoState) (s2 : Store) (uid2 : String) (u : UserOut),
      (get_user_by_id r2 s2 uid2).1 = some u →
      ∃ d ∈ s2.users, u = toOut d :=
  get_user_not_found_sentinel repo0 store0 zzId (by decide)

/-- C1: running any sequence of N creates from any starting state assigns
as `user_index` the consecutive values k, k+1, ..., k+N-1 where k is the
stored counter value plus one — with no duplicates — and every successful
successful create returns a record carrying exactly its assigned value. -/
theorem user_index_assignment_dense (ops : List ((Nat → String) × String))
    (r : RepoState) (s : Store) :
    (runAdds r s ops).1.map Prod.fst =
      (List.range ops.length).map (fun i : Nat => counterVal s + 1 + (i : Int)) ∧
    ∀ p ∈ (runAdds r s ops).1, ∀ u, p.2 = Except.ok u → u.user_index = p.1 := by
  refine ⟨?_, runAdds_ok_index ops r s⟩
  rw [runAdds_fst, consecFrom_eq]

/-- Generated id and payload constants for the concrete witnesses. -/
def idA : String := "a"

/-- Second generated id constant. -/
def idB : String := "b"

/-- Payload of the first scenario create. -/
def anaName : String := "Ana"

/-- Payload of the second scenario create. -/
def boName : String := "Bo"

/-- Payload used by the collision witnesses. -/
def pName : String := "P"

/-- Id stream that always generates `a`. -/
def genA : Nat → String := fun _ => idA

/-- Id stream that always generates `b`. -/
def genB : Nat → String := fun _ => idB

/-- The two scenario creates: `\x7bname: "Ana"\x7d` then `\x7bname: "Bo"\x7d`. -/
def ops2 : List ((Nat → String) × String) := [(genA, anaName), (genB, boName)]

/-- Witness for C1: on the empty store the first create is assigned
`user_index` 1 and the second 2, and the returned records carry these
values. -/
theorem user_index_assignment_dense_witness :
    (runAdds repo0 store0 ops2).1.map Prod.fst = [(1 : Int), 2] ∧
    (⟨idA, 1, anaName⟩ : UserOut).user_index = (1 : Int) ∧
    (⟨idB, 2, boName⟩ : UserOut).user_index = (2 : Int) := by
  obtain ⟨h1, h2⟩ := user_index_assignment_dense ops2 repo0 store0
  refine ⟨?_, ?_, ?_⟩
  · rw [h1]
    decide
  · exact h2 (1, Except.ok ⟨idA, 1, anaName⟩) (by decide) ⟨idA, 1, anaName⟩ rfl
  · exact h2 (2, Except.ok ⟨idB, 2, boName⟩) (by decide) ⟨idB, 2, boName⟩ rfl

/-- C5: starting from the empty store, after any sequence of `add_user`
operations the `id` field is unique across all persisted users — the
store never contains two user records with the same id.  Uniqueness is
enforced by the `uniq_id` storage index that initialization creates and
`insert_one` checks, not by application-level logic. -/
theorem id_unique_invariant (ops : List ((Nat → String) × String)) :
    ((((runAdds repo0 store0 ops).2.2).users).map (fun d => d.id)).Nodup :=
  runAdds_inv ops repo0 store0 (fun h => by simp [repo0] at h)
    (by simp [store0])

theorem get_user_by_id_found (r : RepoState) (s : Store) (uid : String)
    (hr : r.inited = true) (d : StoredUser)
    (hfind : s.users.find? (fun x => x.id == uid) = some d) :
    (get_user_by_id r s uid).1 = some (toOut d) := by
  simp only [get_user_by_id, initRepo_of_inited _ _ hr, hfind]

/-- C4: a user successfully created by `add_user` can immediately be looked
up by the returned id, and the lookup yields exactly the record that
`add_user` returned.  The well-formedness hypothesis says the instance
flag can only be set when the `uniq_id` index exists, which holds for
every state the code can produce. -/
theorem add_user_then_get_roundtrip (r : RepoState) (s : Store)
    (gen : Nat → String) (nm : String) (u : UserOut) (r2 : RepoState)
    (s2 : Store) (hwf : r.inited = true → uniqIdName ∈ s.indexes)
    (h : add_user r s gen nm = (Except.ok u, r2, s2)) :
    (get_user_by_id r2 s2 u.id).1 = some u := by
  have hix2 : uniqIdName ∈ ((get_next_user_index (initRepo r s).2).2).indexes := by
    rw [gnui_indexes]
    exact initRepo_mem_uniqId r s hwf
  simp only [add_user] at h
  split at h
  · rename_i s3 hins
    simp only [Prod.mk.injEq, Except.ok.injEq] at h
    obtain ⟨hu, hr2, hs2⟩ := h
    subst hs2
    subst hr2
    have husers := insert_one_users _ _ _ _ _ hins
    have hno := insert_one_ok_no_dup_id _ _ _ _ _ hix2 hins
    have hid0 : u.id = gen 0 := by rw [← hu]
    have hfind : s3.users.find? (fun x => x.id == u.id) =
        some ⟨((get_next_user_index (initRepo r s).2).2).nextOid, gen 0,
          (get_next_user_index (initRepo r s).2).1, nm⟩ := by
      rw [husers]
      apply find?_append_last
      · intro x hx
        simp only [hid0, beq_eq_false_iff_ne, ne_eq]
        exact hno x hx
      · simp [hid0]
    rw [get_user_by_id_found _ _ _ (initRepo_inited r s) _ hfind]
    simp only [toOut, Option.some.injEq]
    exact hu
  · split at h
    · rename_i hins1 s3 hins
      simp only [Prod.mk.injEq, Except.ok.injEq] at h
      obtain ⟨hu, hr2, hs2⟩ := h
      subst hs2
      subst hr2
      have husers := insert_one_users _ _ _ _ _ hins
      have hno := insert_one_ok_no_dup_id _ _ _ _ _ hix2 hins
      have hid0 : u.id = gen 1 := by rw [← hu]
      have hfind : s3.users.find? (fun x => x.id == u.id) =
          some ⟨((get_next_user_index (initRepo r s).2).2).nextOid, gen 1,
            (get_next_user_index (initRepo r s).2).1, nm⟩ := by
        rw [husers]
        apply find?_append_last
        · intro x hx
          simp only [hid0, beq_eq_false_iff_ne, ne_eq]
          exact hno x hx
        · simp [hid0]
      rw [get_user_by_id_found _ _ _ (initRepo_inited r s) _ hfind]
      simp only [toOut, Option.some.injEq]
      exact hu
    · simp at h

/-- Witness for C4: creating `\x7bname: "Ana"\x7d` on the empty store and
looking up the returned id `a` yields exactly the returned record. -/
theorem add_user_then_get_roundtrip_witness :
    (get_user_by_id (add_user repo0 store0 genA anaName).2.1
      (add_user repo0 store0 genA anaName).2.2 idA).1 =
      some ⟨idA, 1, anaName⟩ :=
  add_user_then_get_roundtrip repo0 store0 genA anaName ⟨idA, 1, anaName⟩
    (add_user repo0 store0 genA anaName).2.1
    (add_user repo0 store0 genA anaName).2.2 (by decide) (by decide)

/-- C3: when the first insert in `add_user` fails with a uniqueness
violation on `id` (a stored user already has the freshly generated id
`gen 0`), the repository regenerates a new id (`gen 1`) and retries the
insert exactly once, keeping the originally assigned `user_index`
unchanged — the counter is incremented exactly once; if the retry also
hits a duplicate id, the exception propagates uncaught. -/
theorem add_user_retry_on_id_collision (r : RepoState) (s : Store)
    (gen : Nat → String) (nm : String) (hr : r.inited = false)
    (hdup : ∃ d ∈ s.users, d.id = gen 0) :
    ((∀ d ∈ s.users, d.id ≠ gen 1) →
      (∀ d ∈ s.users, d.user_index ≠ counterVal s + 1) →
        (add_user r s gen nm).1 = Except.ok ⟨gen 1, counterVal s + 1, nm⟩ ∧
        ((add_user r s gen nm).2.2).counter = some (counterVal s + 1)) ∧
    ((∃ d ∈ s.users, d.id = gen 1) →
      (add_user r s gen nm).1 = Except.error ()) := by
  have hix1 : uniqIdName ∈ ((get_next_user_index (initRepo r s).2).2).indexes := by
    rw [gnui_indexes]
    exact initRepo_mem_uniqId r s (fun hh => absurd hh (by simp [hr]))
  have hus2 : ((get_next_user_index (initRepo r s).2).2).users = s.users := by
    rw [gnui_users, initRepo_users]
  have hcv : (get_next_user_index (initRepo r s).2).1 = counterVal s + 1 := by
    rw [gnui_fst, initRepo_counterVal]
  obtain ⟨d0, hd0, hd0id⟩ := hdup
  have hfail1 : insert_one ((get_next_user_index (initRepo r s).2).2) (gen 0)
      ((get_next_user_index (initRepo r s).2).1) nm = Except.error () := by
    refine insert_one_err_of_dup_id _ _ _ _ hix1 d0 ?_ hd0id
    rw [hus2]
    exact hd0
  constructor
  · intro hclean1 hcleanidx
    have hid1 : ∀ d ∈ ((get_next_user_index (initRepo r s).2).2).users,
        d.id ≠ gen 1 := by
      simp only [hus2]
      exact hclean1
    have hu1 : ∀ d ∈ ((get_next_user_index (initRepo r s).2).2).users,
        d.user_index ≠ (get_next_user_index (initRepo r s).2).1 := by
      simp only [hus2, hcv]
      exact hcleanidx
    have hok := insert_one_ok_of_clean ((get_next_user_index (initRepo r s).2).2)
      (gen 1) ((get_next_user_index (initRepo r s).2).1) nm hid1 hu1
    constructor
    · simp only [add_user, hfail1, hok]
      rw [hcv]
    · simp only [add_user, hfail1, hok]
      rw [gnui_counter, initRepo_counterVal]
  · intro hdup1
    obtain ⟨d1, hd1, hd1id⟩ := hdup1
    have hfail2 : insert_one ((get_next_user_index (initRepo r s).2).2) (gen 1)
        ((get_next_user_index (initRepo r s).2).1) nm = Except.error () := by
      refine insert_one_err_of_dup_id _ _ _ _ hix1 d1 ?_ hd1id
      rw [hus2]
      exact hd1
    simp only [add_user, hfail1, hfail2]

/-- Id stream producing `a` at the first generation and `b` at the retry. -/
def genAB : Nat → String := fun n => if n == 0 then idA else idB

/-- Store already holding a user whose id is `a`, forcing an id collision
on the first insert; its counter stands at 1, so the next assigned
`user_index` is 2. -/
def storeC3 : Store :=
  ⟨[⟨0, idA, 1, pName⟩], some 1, [uniqIdName, uniqUserIndexName], 1⟩

/-- Witness for C3: with the id collision forced, `add_user` succeeds on
the retry with the regenerated id `b`, keeps the assigned `user_index` 2,
and the counter was incremented exactly once. -/
theorem add_user_retry_on_id_collision_witness :
    (add_user repo0 storeC3 genAB pName).1 = Except.ok ⟨idB, 2, pName⟩ ∧
    ((add_user repo0 storeC3 genAB pName).2.2).counter = some 2 := by
  have h := (add_user_retry_on_id_collision repo0 storeC3 genAB pName rfl
      (by decide)).1 (by decide) (by decide)
  constructor
  · rw [h.1]
    decide
  · rw [h.2]
    decide

/-- C9: when the first insert fails with a duplicate-key error coming from
the `user_index` uniqueness constraint (some stored user already holds
the assigned index, while the generated id is fresh), `add_user` still
regenerates only the id and retries with the same `user_index`, so the
retry necessarily fails as well: the single-retry recovery can never
succeed, the error propagates and nothing is inserted. -/
theorem user_index_collision_retry_cannot_succeed (r : RepoState) (s : Store)
    (gen : Nat → String) (nm : String)
    (hwf : r.inited = true → uniqUserIndexName ∈ s.indexes)
    (_hnoid : ∀ d ∈ s.users, d.id ≠ gen 0)
    (hdup : ∃ d ∈ s.users, d.user_index = counterVal s + 1) :
    (add_user r s gen nm).1 = Except.error () ∧
    ((add_user r s gen nm).2.2).users = s.users := by
  have hixu : uniqUserIndexName ∈
      ((get_next_user_index (initRepo r s).2).2).indexes := by
    rw [gnui_indexes]
    exact initRepo_mem_uniqUserIndex r s hwf
  have hus2 : ((get_next_user_index (initRepo r s).2).2).users = s.users := by
    rw [gnui_users, initRepo_users]
  have hcv : (get_next_user_index (initRepo r s).2).1 = counterVal s + 1 := by
    rw [gnui_fst, initRepo_counterVal]
  obtain ⟨d0, hd0, hd0u⟩ := hdup
  have hd0u2 : d0.user_index = (get_next_user_index (initRepo r s).2).1 := by
    rw [hcv]
    exact hd0u
  have hd0m : d0 ∈ ((get_next_user_index (initRepo r s).2).2).users := by
    rw [hus2]
    exact hd0
  have hfail1 := insert_one_err_of_dup_index _ (gen 0) _ nm hixu d0 hd0m hd0u2
  have hfail2 := insert_one_err_of_dup_index _ (gen 1) _ nm hixu d0 hd0m hd0u2
  constructor
  · simp only [add_user, hfail1, hfail2]
  · simp only [add_user, hfail1, hfail2]
    exact hus2

/-- Store already holding a user with `user_index` 1 while the counter
document is absent, so the next assigned index collides with it. -/
def storeC9 : Store :=
  ⟨[⟨0, idA, 1, pName⟩], none, [uniqIdName, uniqUserIndexName], 1⟩

/-- Witness for C9: on a forced `user_index` collision with a fresh id,
`add_user` fails and the users collection is unchanged. -/
theorem user_index_collision_retry_cannot_succeed_witness :
    (add_user repo0 storeC9 genB pName).1 = Except.error () ∧
    ((add_user repo0 storeC9 genB pName).2.2).users = storeC9.users :=
  user_index_collision_retry_cannot_succeed repo0 storeC9 genB pName
    (by decide) (by decide) (by decide)

end FirstSteps
